import Mathlib

/-!
Verification of the attention-aggregation core of the `koto` repository.

The Lean definitions below are a shallow embedding of the Rust sources:

* `src/repo/github/timeutil.rs` — calendar arithmetic and the fixed-format
  UTC timestamp parser (Rust machine integers are modelled as `Int`; all the
  intermediate values fit comfortably in `i32`/`i64` on the domains used, so
  no wrap-around modelling is required; Rust's truncating `/` on integers is
  `Int.tdiv`);
* `src/repo/github/model.rs` — the output data model (`CiCheck`,
  `MergeBlockers`, `Pr`) including `MergeBlockers::is_clear`;
* `src/repo/github/mod.rs` — field derivation (`map_ci_checks`,
  `derive_ci_state`, `map_review_state`, `is_review_requested_by_user`,
  `compute_merge_blockers`, `to_pr`), the identity merge (`merge_into`,
  with the `HashMap` modelled extensionally as `String → Option Pr`) and
  the per-stream pagination loops of `fetch_attention_prs` (the sequence of
  GraphQL responses a server would deliver is modelled as a list of pages
  consumed in order; the result records the kept nodes plus how many pages
  were requested).

Rust strings are modelled as `List Char`; byte indexing and char indexing
agree on every input on which the parser can get past its digit/separator
checks, and both models return `none` elsewhere.
-/

namespace Koto

/-! ## timeutil.rs : calendar arithmetic -/

/-- Embeds `days_from_civil` from `timeutil.rs` (Howard-Hinnant civil calendar,
Rust `/` on machine integers is truncating division `Int.tdiv`). -/
def days_from_civil (year month day : Int) : Option Int :=
  if month < 1 ∨ 12 < month then none
  else if day < 1 ∨ 31 < day then none
  else
    let y := year - (if month ≤ 2 then 1 else 0)
    let era := (if 0 ≤ y then y else y - 399).tdiv 400
    let yoe := y - era * 400
    let doy := (153 * (month + (if 2 < month then -3 else 9)) + 2).tdiv 5 + day - 1
    let doe := yoe * 365 + yoe.tdiv 4 - yoe.tdiv 100 + doy
    some (era * 146097 + doe - 719468)

/-- Embeds `civil_from_days` from `timeutil.rs`. -/
def civil_from_days (days : Int) : Option (Int × Int × Int) :=
  let z := days + 719468
  let era := (if 0 ≤ z then z else z - 146096).tdiv 146097
  let doe := z - era * 146097
  let yoe := (doe - doe.tdiv 1460 + doe.tdiv 36524 - doe.tdiv 146096).tdiv 365
  let y := yoe + era * 400
  let doy := doe - (365 * yoe + yoe.tdiv 4 - yoe.tdiv 100)
  let mp := (5 * doy + 2).tdiv 153
  let d := doy - (153 * mp + 2).tdiv 5 + 1
  let m := mp + (if mp < 10 then 3 else -9)
  let year := y + (if m ≤ 2 then 1 else 0)
  some (year, m, d)

/-- Embeds `unix_to_ymd` from `timeutil.rs`. -/
def unix_to_ymd (ts : Int) : Option (Int × Int × Int) :=
  if ts < 0 then none
  else civil_from_days (ts.tdiv 86400)

/-! ## timeutil.rs : timestamp parser -/

/-- Unicode `White_Space` characters, as recognised by Rust `str::trim`. -/
def isRustWhitespace (c : Char) : Bool :=
  c == '\u0009' || c == '\u000A' || c == '\u000B' || c == '\u000C' ||
  c == '\u000D' || c == '\u0020' || c == '\u0085' || c == '\u00A0' ||
  c == '\u1680' || c == '\u2000' || c == '\u2001' || c == '\u2002' ||
  c == '\u2003' || c == '\u2004' || c == '\u2005' || c == '\u2006' ||
  c == '\u2007' || c == '\u2008' || c == '\u2009' || c == '\u200A' ||
  c == '\u2028' || c == '\u2029' || c == '\u202F' || c == '\u205F' ||
  c == '\u3000'

/-- Rust `str::trim_start`: drop the leading whitespace run. -/
def trimStart (s : List Char) : List Char := s.dropWhile isRustWhitespace

/-- Rust `str::trim_end`: drop the trailing whitespace run. -/
def trimEnd : List Char → List Char
  | [] => []
  | c :: cs =>
    match trimEnd cs with
    | [] => if isRustWhitespace c then [] else [c]
    | r => c :: r

/-- Rust `str::trim`. -/
def rustTrim (s : List Char) : List Char := trimEnd (trimStart s)

/-- Rust `str::rsplit_once(c)`: split around the last occurrence of `c`. -/
def rsplitOnce (c : Char) : List Char → Option (List Char × List Char)
  | [] => none
  | x :: xs =>
    match rsplitOnce c xs with
    | some (a, b) => some (x :: a, b)
    | none => if x = c then some ([], xs) else none

/-- Rust `str::split_once(c)`: split around the first occurrence of `c`. -/
def splitOnce (c : Char) : List Char → Option (List Char × List Char)
  | [] => none
  | x :: xs =>
    if x = c then some ([], xs)
    else (splitOnce c xs).map (fun p => (x :: p.1, p.2))

/-- Digit-string accumulator used by integer parsing. -/
def parseDigitsAux (acc : Nat) : List Char → Option Nat
  | [] => some acc
  | c :: cs => if c.isDigit then parseDigitsAux (acc * 10 + (c.toNat - 48)) cs else none

/-- Parse a non-empty all-digit string. -/
def parseDigits : List Char → Option Nat
  | [] => none
  | cs => parseDigitsAux 0 cs

/-- Rust `str::parse::<u32>` on the short fixed-width fields used here
(an optional leading `+`, then one or more digits; the two- and
four-character call sites can never overflow `u32`). -/
def parseU32 : List Char → Option Nat
  | '+' :: cs => parseDigits cs
  | cs => parseDigits cs

/-- Rust `str::parse::<i32>` on the four-character year field
(an optional sign, then one or more digits). -/
def parseI32 : List Char → Option Int
  | '+' :: cs => (parseDigits cs).map (fun n => (n : Int))
  | '-' :: cs => (parseDigits cs).map (fun n => -(n : Int))
  | cs => (parseDigits cs).map (fun n => (n : Int))

/-- Rust `str::get(i..j)`. -/
def sliceGet (cs : List Char) (i j : Nat) : Option (List Char) :=
  if i ≤ j ∧ j ≤ cs.length then some ((cs.drop i).take (j - i)) else none

/-- Fields 0-10 of the main portion: year `-` month `-` day. -/
def parseDatePart (main : List Char) : Option (Int × Nat × Nat) :=
  (sliceGet main 0 4).bind fun s04 =>
  (parseI32 s04).bind fun year =>
  (sliceGet main 4 5).bind fun s45 =>
  if s45 ≠ ['-'] then none else
  (sliceGet main 5 7).bind fun s57 =>
  (parseU32 s57).bind fun mon =>
  (sliceGet main 7 8).bind fun s78 =>
  if s78 ≠ ['-'] then none else
  (sliceGet main 8 10).bind fun s810 =>
  (parseU32 s810).bind fun day =>
  some (year, mon, day)

/-- Fields 10-19 of the main portion: `T` hour `:` minute `:` second. -/
def parseTimePart (main : List Char) : Option (Nat × Nat × Nat) :=
  (sliceGet main 10 11).bind fun s1011 =>
  if s1011 ≠ ['T'] then none else
  (sliceGet main 11 13).bind fun s1113 =>
  (parseU32 s1113).bind fun hour =>
  (sliceGet main 13 14).bind fun s1314 =>
  if s1314 ≠ [':'] then none else
  (sliceGet main 14 16).bind fun s1416 =>
  (parseU32 s1416).bind fun minute =>
  (sliceGet main 16 17).bind fun s1617 =>
  if s1617 ≠ [':'] then none else
  (sliceGet main 17 19).bind fun s1719 =>
  (parseU32 s1719).bind fun second =>
  some (hour, minute, second)

/-- The fractional-second stripping step of the parser:
`main.split_once('.').map(|(a, _)| a).unwrap_or(main)`. -/
def stripFrac (main0 : List Char) : List Char :=
  match splitOnce '.' main0 with
  | some p => p.1
  | none => main0

/-- Body of `parse_github_datetime_to_unix` after the initial `trim`:
split at the last `Z`, require an empty suffix, strip fractional seconds,
require exactly 19 characters, then decode the nine fixed-width fields in
source order and combine. -/
def parseDateTime (s : List Char) : Option Int :=
  match rsplitOnce 'Z' s with
  | none => none
  | some (main0, tz) =>
    if tz ≠ [] then none
    else
      let main := stripFrac main0
      if main.length ≠ 19 then none
      else
        (parseDatePart main).bind fun ymd =>
        (parseTimePart main).bind fun hms =>
        (days_from_civil ymd.1 (ymd.2.1 : Int) (ymd.2.2 : Int)).bind fun days =>
        some (days * 86400 + (hms.1 : Int) * 3600 + (hms.2.1 : Int) * 60 + (hms.2.2 : Int))

/-- Embeds `parse_github_datetime_to_unix` from `timeutil.rs`. -/
def parse_github_datetime_to_unix (s : String) : Option Int :=
  parseDateTime (rustTrim s.data)

/-! ## model.rs : data model -/

/-- Embeds `CiState` from `model.rs`. -/
inductive CiState
  | Success
  | Failure
  | Running
  | None
deriving DecidableEq

/-- Embeds `ReviewState` from `model.rs`. -/
inductive ReviewState
  | Requested
  | Approved
  | None
deriving DecidableEq

/-- Embeds `CiCheckState` from `model.rs`. -/
inductive CiCheckState
  | Success
  | Failure
  | Running
  | Neutral
  | None
deriving DecidableEq

/-- Embeds `CiCheck` from `model.rs`. -/
structure CiCheck where
  name : String
  state : CiCheckState
  url : Option String
  started_at_unix : Option Int
deriving DecidableEq

/-- Embeds `MergeBlockers` from `model.rs` (`u32` fields as `Nat`). -/
structure MergeBlockers where
  has_conflicts : Bool
  required_approvals : Option Nat
  current_approvals : Nat
  required_checks : List String
  failing_required_checks : List String
  is_behind_base : Bool
deriving DecidableEq

/-- Embeds `MergeBlockers::is_clear` from `model.rs`. -/
def MergeBlockers.is_clear (mb : MergeBlockers) : Bool :=
  !mb.has_conflicts && !mb.is_behind_base && mb.failing_required_checks.isEmpty &&
    (match mb.required_approvals with
     | some r => r ≤ mb.current_approvals
     | none => true)

/-- Embeds `StatusContextNode` from `model.rs`. -/
structure StatusContextNode where
  typename : Option String
  name : Option String
  conclusion : Option String
  details_url : Option String
  started_at : Option String
  context : Option String
  state : Option String
  target_url : Option String
deriving DecidableEq

/-- Embeds `Pr` from `model.rs`. -/
structure Pr where
  pr_key : String
  owner : String
  repo : String
  number : Int
  author : String
  title : String
  url : String
  updated_at_unix : Int
  last_commit_sha : Option String
  ci_state : CiState
  ci_checks : List CiCheck
  review_state : ReviewState
  is_draft : Bool
  mergeable : Option String
  merge_state_status : Option String
  is_viewer_author : Bool
  merge_blockers : Option MergeBlockers
deriving DecidableEq

/-! ## mod.rs : response shapes -/

/-- Embeds `RepoOwner` from `mod.rs`. -/
structure RepoOwner where
  login : String
deriving DecidableEq

/-- Embeds `Repository` from `mod.rs`. -/
structure Repository where
  name : String
  owner : RepoOwner
deriving DecidableEq

/-- Embeds `Author` from `mod.rs`. -/
structure Author where
  login : String
deriving DecidableEq

/-- Embeds `RequestedReviewer` from `mod.rs`. -/
structure RequestedReviewer where
  typename : Option String
  login : Option String
deriving DecidableEq

/-- Embeds `ReviewRequestNode` from `mod.rs`. -/
structure ReviewRequestNode where
  requested_reviewer : Option RequestedReviewer
deriving DecidableEq

/-- Embeds `ReviewRequestConnection` from `mod.rs`. -/
structure ReviewRequestConnection where
  nodes : Option (List ReviewRequestNode)
deriving DecidableEq

/-- Embeds `StatusContexts` from `mod.rs`. -/
structure StatusContexts where
  nodes : Option (List StatusContextNode)
deriving DecidableEq

/-- Embeds `StatusCheckRollup` from `mod.rs`. -/
structure StatusCheckRollup where
  state : Option String
  contexts : Option StatusContexts
deriving DecidableEq

/-- Embeds `CommitInner` from `mod.rs`. -/
structure CommitInner where
  status_check_rollup : Option StatusCheckRollup
deriving DecidableEq

/-- Embeds `CommitNode` from `mod.rs`. -/
structure CommitNode where
  commit : Option CommitInner
deriving DecidableEq

/-- Embeds `Commits` from `mod.rs`. -/
structure Commits where
  nodes : Option (List CommitNode)
deriving DecidableEq

/-- Embeds `ReviewsConnection` from `mod.rs` (`total_count : Option<i32>`). -/
structure ReviewsConnection where
  total_count : Option Int
deriving DecidableEq

/-- Embeds `BranchProtectionRule` from `mod.rs`. -/
structure BranchProtectionRule where
  required_approving_review_count : Option Int
  required_status_check_contexts : Option (List String)
deriving DecidableEq

/-- Embeds `BaseRef` from `mod.rs`. -/
structure BaseRef where
  branch_protection_rule : Option BranchProtectionRule
deriving DecidableEq

/-- Embeds `PullRequestNode` from `mod.rs`. -/
structure PullRequestNode where
  number : Int
  title : String
  url : String
  updated_at : String
  repository : Repository
  author : Option Author
  review_requests : Option ReviewRequestConnection
  head_ref_oid : Option String
  review_decision : Option String
  is_draft : Option Bool
  mergeable : Option String
  merge_state_status : Option String
  commits : Option Commits
  reviews : Option ReviewsConnection
  base_ref : Option BaseRef
deriving DecidableEq

/-- Embeds `PageInfo` from `mod.rs`. -/
structure PageInfo where
  has_next_page : Bool
  end_cursor : Option String
deriving DecidableEq

/-- Embeds `SearchNode` from `mod.rs` (every PR field optional). -/
structure SearchNode where
  typename : Option String
  number : Option Int
  title : Option String
  url : Option String
  updated_at : Option String
  repository : Option Repository
  author : Option Author
  review_requests : Option ReviewRequestConnection
  head_ref_oid : Option String
  review_decision : Option String
  is_draft : Option Bool
  mergeable : Option String
  merge_state_status : Option String
  commits : Option Commits
  reviews : Option ReviewsConnection
  base_ref : Option BaseRef
deriving DecidableEq

/-- Embeds `SearchNode::into_pull_request` from `mod.rs`. -/
def SearchNode.into_pull_request (n : SearchNode) : Option PullRequestNode :=
  match n.typename with
  | none => none
  | some t =>
    if t ≠ "PullRequest" then none
    else
      match n.number, n.title, n.url, n.updated_at, n.repository with
      | some number, some title, some url, some updated_at, some repository =>
        some { number := number, title := title, url := url, updated_at := updated_at,
               repository := repository, author := n.author,
               review_requests := n.review_requests, head_ref_oid := n.head_ref_oid,
               review_decision := n.review_decision, is_draft := n.is_draft,
               mergeable := n.mergeable, merge_state_status := n.merge_state_status,
               commits := n.commits, reviews := n.reviews, base_ref := n.base_ref }
      | _, _, _, _, _ => none

/-! ## mod.rs : field derivation -/

/-- Embeds `rollup_state` from `mod.rs`. -/
def rollup_state (node : PullRequestNode) : Option String :=
  ((((node.commits.bind fun c => c.nodes).bind fun ns => ns.head?).bind
      fun n => n.commit).bind fun c => c.status_check_rollup).bind fun s => s.state

/-- Embeds `status_context_nodes` from `mod.rs`. -/
def status_context_nodes (node : PullRequestNode) : List StatusContextNode :=
  ((((((node.commits.bind fun c => c.nodes).bind fun ns => ns.head?).bind
      fun n => n.commit).bind fun c => c.status_check_rollup).bind
      fun s => s.contexts).bind fun c => c.nodes).getD []

/-- One iteration of the `map_ci_checks` loop from `mod.rs`: the `CheckRun`
and `StatusContext` arms push a check, every other typename pushes nothing. -/
def map_ci_check (ctx : StatusContextNode) : Option CiCheck :=
  match ctx.typename with
  | some "CheckRun" =>
    some { name := ctx.name.getD "check"
           state :=
             match ctx.conclusion with
             | some "SUCCESS" => CiCheckState.Success
             | some "FAILURE" => CiCheckState.Failure
             | some "CANCELLED" => CiCheckState.Failure
             | some "NEUTRAL" => CiCheckState.Neutral
             | some "SKIPPED" => CiCheckState.Neutral
             | _ => CiCheckState.Running
           url := ctx.details_url.or ctx.target_url
           started_at_unix := ctx.started_at.bind fun s => parse_github_datetime_to_unix s }
  | some "StatusContext" =>
    some { name := ctx.context.getD "status"
           state :=
             match ctx.state with
             | some "SUCCESS" => CiCheckState.Success
             | some "FAILURE" => CiCheckState.Failure
             | some "PENDING" => CiCheckState.Running
             | _ => CiCheckState.None
           url := ctx.target_url
           started_at_unix := none }
  | _ => none

/-- Embeds `map_ci_checks` from `mod.rs`. -/
def map_ci_checks (node : PullRequestNode) : List CiCheck :=
  (status_context_nodes node).filterMap map_ci_check

/-- Embeds `derive_ci_state` from `mod.rs`. -/
def derive_ci_state (rollup : Option String) (checks : List CiCheck) : CiState :=
  if checks.any fun c => c.state == CiCheckState.Running then CiState.Running
  else if checks.any fun c => c.state == CiCheckState.Failure then CiState.Failure
  else if checks.any fun c => c.state == CiCheckState.Success then CiState.Success
  else
    match rollup.getD "none" with
    | "SUCCESS" => CiState.Success
    | "FAILURE" => CiState.Failure
    | "PENDING" => CiState.Running
    | "IN_PROGRESS" => CiState.Running
    | _ => CiState.None

/-- Embeds `map_review_state` from `mod.rs`. -/
def map_review_state (node : PullRequestNode) (is_requested : Bool) : ReviewState :=
  if is_requested then ReviewState.Requested
  else
    match node.review_decision with
    | some "APPROVED" => ReviewState.Approved
    | _ => ReviewState.None

/-- Embeds `is_review_requested_by_user` from `mod.rs`. -/
def is_review_requested_by_user (node : PullRequestNode) (viewer_login : String) : Bool :=
  match node.review_requests with
  | none => false
  | some rr =>
    match rr.nodes with
    | none => false
    | some ns =>
      ns.any fun n =>
        match n.requested_reviewer with
        | none => false
        | some r => r.typename == some "User" && r.login == some viewer_login

/-- Rust `char::to_ascii_lowercase`. -/
def asciiLower (c : Char) : Char :=
  if 'A' ≤ c ∧ c ≤ 'Z' then Char.ofNat (c.toNat + 32) else c

/-- Rust `str::eq_ignore_ascii_case`. -/
def eqIgnoreAsciiCase (a b : String) : Bool :=
  a.data.map asciiLower == b.data.map asciiLower

/-- Rust `as u32` cast on an `i32` value. -/
def u32_of_i32 (i : Int) : Nat := (i % 4294967296).toNat

/-- Embeds `compute_merge_blockers` from `mod.rs`. -/
def compute_merge_blockers (node : PullRequestNode) (ci_checks : List CiCheck) : MergeBlockers :=
  let has_conflicts := match node.mergeable with
    | some s => eqIgnoreAsciiCase s "CONFLICTING"
    | none => false
  let is_behind_base := match node.merge_state_status with
    | some s => eqIgnoreAsciiCase s "BEHIND"
    | none => false
  let approvals_checks : Option Nat × List String :=
    match node.base_ref.bind fun br => br.branch_protection_rule with
    | some bpr =>
      (bpr.required_approving_review_count.map u32_of_i32,
       bpr.required_status_check_contexts.getD [])
    | none => (none, [])
  let required_approvals := approvals_checks.1
  let required_checks := approvals_checks.2
  let current_approvals := u32_of_i32 (((node.reviews.bind fun r => r.total_count).getD 0))
  let check_names_success :=
    (ci_checks.filter fun c => c.state == CiCheckState.Success).map fun c => c.name
  let failing_required_checks :=
    required_checks.filter fun name => !(check_names_success.contains name)
  { has_conflicts := has_conflicts
    required_approvals := required_approvals
    current_approvals := current_approvals
    required_checks := required_checks
    failing_required_checks := failing_required_checks
    is_behind_base := is_behind_base }

/-- Embeds `to_pr` from `mod.rs`. -/
def to_pr (node : PullRequestNode) (is_requested : Bool) (viewer_login : String) : Option Pr :=
  let ci_checks := map_ci_checks node
  let ci_state := derive_ci_state (rollup_state node) ci_checks
  let last_commit_sha := node.head_ref_oid
  let review_state := map_review_state node is_requested
  let owner := node.repository.owner.login
  let repo := node.repository.name
  let author := match node.author with
    | some a => a.login
    | none => "unknown"
  match parse_github_datetime_to_unix node.updated_at with
  | none => none
  | some updated_at_unix =>
    let pr_key := owner ++ "/" ++ repo ++ "#" ++ toString node.number
    let is_viewer_author := match node.author with
      | some a => a.login == viewer_login
      | none => false
    let mb := compute_merge_blockers node ci_checks
    let merge_blockers := if mb.is_clear then none else some mb
    some { pr_key := pr_key, owner := owner, repo := repo, number := node.number,
           author := author, title := node.title, url := node.url,
           updated_at_unix := updated_at_unix, last_commit_sha := last_commit_sha,
           ci_state := ci_state, ci_checks := ci_checks, review_state := review_state,
           is_draft := node.is_draft.getD false, mergeable := node.mergeable,
           merge_state_status := node.merge_state_status,
           is_viewer_author := is_viewer_author, merge_blockers := merge_blockers }

/-! ## mod.rs : identity merge -/

/-- The `HashMap<String, Pr>` of `fetch_attention_prs`, modelled extensionally. -/
abbrev PrMap := String → Option Pr

/-- The empty map. -/
def emptyPrMap : PrMap := fun _ => none

/-- Embeds `merge_into` from `mod.rs`: carry a previously recorded
`is_viewer_author = true` forward onto the replacing record, then insert. -/
def merge_into (m : PrMap) (pr : Pr) : PrMap :=
  let pr2 := match m pr.pr_key with
    | some existing => if existing.is_viewer_author then { pr with is_viewer_author := true } else pr
    | none => pr
  fun k => if k = pr2.pr_key then some pr2 else m k

/-! ## mod.rs : pagination loops of `fetch_attention_prs` -/

/-- Rust `Option::is_some_and(|m| m < cutoff_ts)`. -/
def minBelow (cutoff_ts : Int) : Option Int → Bool
  | some m => m < cutoff_ts
  | none => false

/-- One page of the authored stream (`resp.data.viewer.pull_requests`). -/
structure AuthoredPage where
  page_info : PageInfo
  nodes : Option (List PullRequestNode)
deriving DecidableEq

/-- One page of the review-requested search stream (`resp.data.search`). -/
structure SearchPage where
  page_info : PageInfo
  nodes : Option (List SearchNode)
deriving DecidableEq

/-- The per-page node loop of the authored stream in `fetch_attention_prs`:
track the minimum parseable `updatedAt`, keep the nodes at or after the
cutoff, drop nodes whose timestamp does not parse. -/
def authored_page_scan (cutoff_ts : Int) (ns : List PullRequestNode) :
    List PullRequestNode × Option Int :=
  ns.foldl
    (fun acc n =>
      match parse_github_datetime_to_unix n.updated_at with
      | some u =>
        let mn := some (match acc.2 with | some m => min m u | none => u)
        if cutoff_ts ≤ u then (acc.1 ++ [n], mn) else (acc.1, mn)
      | none => acc)
    ([], none)

/-- The authored-stream pagination loop of `fetch_attention_prs`, driven over
the sequence of pages the server would return; the second component counts
how many pages were requested. -/
def run_authored (cutoff_ts : Int) : List AuthoredPage → List PullRequestNode × Nat
  | [] => ([], 0)
  | p :: rest =>
    match p.nodes with
    | some ns =>
      let s := authored_page_scan cutoff_ts ns
      if minBelow cutoff_ts s.2 then (s.1, 1)
      else if p.page_info.has_next_page = false then (s.1, 1)
      else if p.page_info.end_cursor = none then (s.1, 1)
      else
        let r := run_authored cutoff_ts rest
        (s.1 ++ r.1, r.2 + 1)
    | none =>
      if p.page_info.has_next_page = false then ([], 1)
      else if p.page_info.end_cursor = none then ([], 1)
      else
        let r := run_authored cutoff_ts rest
        (r.1, r.2 + 1)

/-- The per-page node loop of the review-requested stream: convert each
search node, track the minimum parseable `updatedAt` of the converted nodes,
skip stale nodes, and keep the rest subject to the reviewer-inclusion
policy (unparseable timestamps skip only the staleness check). -/
def search_page_scan (include_team_requests : Bool) (viewer_login : String)
    (cutoff_ts : Int) (ns : List SearchNode) : List PullRequestNode × Option Int :=
  ns.foldl
    (fun acc n =>
      match n.into_pull_request with
      | none => acc
      | some pr =>
        match parse_github_datetime_to_unix pr.updated_at with
        | some u =>
          let mn := some (match acc.2 with | some m => min m u | none => u)
          if u < cutoff_ts then (acc.1, mn)
          else if include_team_requests || is_review_requested_by_user pr viewer_login then
            (acc.1 ++ [pr], mn)
          else (acc.1, mn)
        | none =>
          if include_team_requests || is_review_requested_by_user pr viewer_login then
            (acc.1 ++ [pr], acc.2)
          else acc)
    ([], none)

/-- The review-requested pagination loop of `fetch_attention_prs`; the second
component counts how many pages were requested. -/
def run_search (include_team_requests : Bool) (viewer_login : String) (cutoff_ts : Int) :
    List SearchPage → List PullRequestNode × Nat
  | [] => ([], 0)
  | p :: rest =>
    match p.nodes with
    | some ns =>
      let s := search_page_scan include_team_requests viewer_login cutoff_ts ns
      if minBelow cutoff_ts s.2 then (s.1, 1)
      else if p.page_info.has_next_page = false then (s.1, 1)
      else if p.page_info.end_cursor = none then (s.1, 1)
      else
        let r := run_search include_team_requests viewer_login cutoff_ts rest
        (s.1 ++ r.1, r.2 + 1)
    | none =>
      if p.page_info.has_next_page = false then ([], 1)
      else if p.page_info.end_cursor = none then ([], 1)
      else
        let r := run_search include_team_requests viewer_login cutoff_ts rest
        (r.1, r.2 + 1)

/-- The merge phase of `fetch_attention_prs`: authored nodes first (each
forced to `is_viewer_author := true`), then review-requested nodes (each
converted with `is_requested := true`). -/
def merge_phase (viewer_login : String) (authored requested_nodes : List PullRequestNode) :
    PrMap :=
  let m1 := authored.foldl
    (fun m node =>
      let requested_user := is_review_requested_by_user node viewer_login
      match to_pr node requested_user viewer_login with
      | some pr => merge_into m { pr with is_viewer_author := true }
      | none => m)
    emptyPrMap
  requested_nodes.foldl
    (fun m node =>
      match to_pr node true viewer_login with
      | some pr => merge_into m pr
      | none => m)
    m1

/-! ## Calendar correctness (claims C7 / C9)

`hE`/`gE`/`fE` are the euclidean-division normal forms of the year-of-era
computations inside `civil_from_days` / `days_from_civil`; `leapYOE`/`lastD`
describe which years of an era have 366 days. -/

/-- Gregorian leap-year predicate (states what a *valid* calendar date is;
used by the amended C7). -/
def isLeapYear (y : Int) : Bool := y % 4 == 0 && (y % 100 != 0 || y % 400 == 0)

/-- Length of a Gregorian month (states what a *valid* calendar date is;
used by the amended C7). -/
def daysInMonth (y m : Int) : Int :=
  if m = 2 then (if isLeapYear y then 29 else 28)
  else if m = 4 ∨ m = 6 ∨ m = 9 ∨ m = 11 then 30 else 31

/-- Day-of-era increment term of `civil_from_days`, in euclidean division. -/
def hE (doe : Int) : Int := doe - doe / 1460 + doe / 36524 - doe / 146096

/-- Year-of-era recovery of `civil_from_days`, in euclidean division. -/
def gE (doe : Int) : Int := hE doe / 365

/-- First day-of-era of a year-of-era, as computed by `days_from_civil`. -/
def fE (yoe : Int) : Int := 365 * yoe + yoe / 4 - yoe / 100

/-- Whether year-of-era `yoe` (0-based, March-anchored) has 366 days. -/
def leapYOE (yoe : Int) : Bool :=
  (yoe + 1) % 4 == 0 && ((yoe + 1) % 100 != 0 || (yoe + 1) % 400 == 0)

/-- Last day-of-year index of a year-of-era. -/
def lastD (yoe : Int) : Int := if leapYOE yoe then 365 else 364

theorem floor400 (y : Int) : (if 0 ≤ y then y else y - 399).tdiv 400 = y / 400 := by
  by_cases h : 0 ≤ y
  · rw [if_pos h, Int.tdiv_eq_ediv h (by norm_num)]
  · rw [if_neg h]
    have h2 : y - 399 = -(399 - y) := by ring
    rw [h2, Int.neg_tdiv, Int.tdiv_eq_ediv (by omega) (by norm_num)]
    omega

theorem floor146097 (z : Int) : (if 0 ≤ z then z else z - 146096).tdiv 146097 = z / 146097 := by
  by_cases h : 0 ≤ z
  · rw [if_pos h, Int.tdiv_eq_ediv h (by norm_num)]
  · rw [if_neg h]
    have h2 : z - 146096 = -(146096 - z) := by ring
    rw [h2, Int.neg_tdiv, Int.tdiv_eq_ediv (by omega) (by norm_num)]
    omega

theorem hE_step (doe : Int) : hE doe ≤ hE (doe + 1) := by unfold hE; omega

theorem hE_mono : ∀ (n : Nat) (a : Int), hE a ≤ hE (a + n)
  | 0, a => by simp
  | n + 1, a => by
    have h1 := hE_mono n a
    have h2 := hE_step (a + n)
    have h3 : (a + ((n : Int) + 1)) = (a + n) + 1 := by ring
    push_cast
    rw [h3]
    omega

theorem hE_mono_le {a b : Int} (h : a ≤ b) : hE a ≤ hE b := by
  have h1 := hE_mono (b - a).toNat a
  have h2 : a + ((b - a).toNat : Int) = b := by omega
  rwa [h2] at h1

theorem gE_mono {a b : Int} (h : a ≤ b) : gE a ≤ gE b := by
  unfold gE
  have := hE_mono_le h
  omega

set_option maxRecDepth 100000 in
theorem yoeTable : ∀ n : Nat, n < 400 →
    gE (fE (n : Int)) = (n : Int) ∧ gE (fE (n : Int) + lastD (n : Int)) = (n : Int) := by decide

theorem gE_correct {yoe doy : Int} (h1 : 0 ≤ yoe) (h2 : yoe ≤ 399)
    (h3 : 0 ≤ doy) (h4 : doy ≤ lastD yoe) : gE (fE yoe + doy) = yoe := by
  have ht := yoeTable yoe.toNat (by omega)
  have hc : ((yoe.toNat : Int)) = yoe := by omega
  rw [hc] at ht
  have hlo := gE_mono (show fE yoe ≤ fE yoe + doy by omega)
  have hhi := gE_mono (show fE yoe + doy ≤ fE yoe + lastD yoe by omega)
  omega

theorem civil_from_days_eq (D era yoe doy : Int)
    (hD : D + 719468 = era * 146097 + (fE yoe + doy))
    (hy1 : 0 ≤ yoe) (hy2 : yoe ≤ 399) (hd1 : 0 ≤ doy) (hd2 : doy ≤ lastD yoe) :
    civil_from_days D =
      some (yoe + era * 400 +
              (if ((5 * doy + 2) / 153 + (if (5 * doy + 2) / 153 < 10 then 3 else -9)) ≤ 2
               then 1 else 0),
            (5 * doy + 2) / 153 + (if (5 * doy + 2) / 153 < 10 then 3 else -9),
            doy - (153 * ((5 * doy + 2) / 153) + 2) / 5 + 1) := by
  have hfE : 0 ≤ fE yoe ∧ fE yoe ≤ 145731 := by unfold fE; omega
  have hlast : lastD yoe ≤ 365 := by unfold lastD; split <;> omega
  have hdoe : 0 ≤ fE yoe + doy ∧ fE yoe + doy ≤ 146096 := by omega
  simp only [civil_from_days]
  rw [floor146097]
  have hera : (D + 719468) / 146097 = era := by omega
  rw [hera]
  have hdoe2 : D + 719468 - era * 146097 = fE yoe + doy := by omega
  rw [hdoe2]
  rw [Int.tdiv_eq_ediv (show (0:Int) ≤ fE yoe + doy by omega) (by norm_num : (0:Int) ≤ 1460)]
  rw [Int.tdiv_eq_ediv (show (0:Int) ≤ fE yoe + doy by omega) (by norm_num : (0:Int) ≤ 36524)]
  rw [Int.tdiv_eq_ediv (show (0:Int) ≤ fE yoe + doy by omega) (by norm_num : (0:Int) ≤ 146096)]
  rw [Int.tdiv_eq_ediv
      (show (0:Int) ≤ fE yoe + doy - (fE yoe + doy) / 1460 + (fE yoe + doy) / 36524
          - (fE yoe + doy) / 146096 by omega)
      (by norm_num : (0:Int) ≤ 365)]
  have hyoe : (fE yoe + doy - (fE yoe + doy) / 1460 + (fE yoe + doy) / 36524
      - (fE yoe + doy) / 146096) / 365 = yoe := by
    have h := gE_correct hy1 hy2 hd1 hd2
    unfold gE hE at h
    exact h
  rw [hyoe]
  rw [Int.tdiv_eq_ediv hy1 (by norm_num : (0:Int) ≤ 4)]
  rw [Int.tdiv_eq_ediv hy1 (by norm_num : (0:Int) ≤ 100)]
  have hdoy : fE yoe + doy - (365 * yoe + yoe / 4 - yoe / 100) = doy := by unfold fE; ring
  rw [hdoy]
  rw [Int.tdiv_eq_ediv (show (0:Int) ≤ 5 * doy + 2 by omega) (by norm_num : (0:Int) ≤ 153)]
  rw [Int.tdiv_eq_ediv (show (0:Int) ≤ 153 * ((5 * doy + 2) / 153) + 2 by omega)
      (by norm_num : (0:Int) ≤ 5)]

theorem month_reconstruct (m d doy : Int) (hm1 : 1 ≤ m) (hm2 : m ≤ 12) (hd1 : 1 ≤ d)
    (hdM : d ≤ (if m = 2 then 29 else if m = 4 ∨ m = 6 ∨ m = 9 ∨ m = 11 then 30 else 31))
    (hdoy : doy = (153 * (m + (if 2 < m then -3 else 9)) + 2) / 5 + d - 1) :
    (5 * doy + 2) / 153 + (if (5 * doy + 2) / 153 < 10 then 3 else -9) = m ∧
    doy - (153 * ((5 * doy + 2) / 153) + 2) / 5 + 1 = d := by
  subst hdoy
  interval_cases m <;> norm_num at hdM ⊢ <;> omega

/-- Round trip of the calendar conversions on genuine Gregorian dates. -/
theorem civil_roundtrip (y m d : Int) (hm1 : 1 ≤ m) (hm2 : m ≤ 12) (hd1 : 1 ≤ d)
    (hd2 : d ≤ daysInMonth y m) :
    ∃ D, days_from_civil y m d = some D ∧ civil_from_days D = some (y, m, d) := by
  have hdM : d ≤ (if m = 2 then 29 else if m = 4 ∨ m = 6 ∨ m = 9 ∨ m = 11 then 30 else 31) := by
    unfold daysInMonth at hd2
    rcases em (m = 2) with h | h
    · rw [if_pos h] at hd2 ⊢
      rcases em (isLeapYear y = true) with hl | hl
      · rw [if_pos hl] at hd2; omega
      · rw [if_neg hl] at hd2; omega
    · rw [if_neg h] at hd2 ⊢
      rcases em (m = 4 ∨ m = 6 ∨ m = 9 ∨ m = 11) with h4 | h4
      · rw [if_pos h4] at hd2 ⊢; omega
      · rw [if_neg h4] at hd2 ⊢; omega
  have hd31 : d ≤ 31 := by
    rcases em (m = 2) with h | h
    · rw [if_pos h] at hdM; omega
    · rw [if_neg h] at hdM
      rcases em (m = 4 ∨ m = 6 ∨ m = 9 ∨ m = 11) with h4 | h4
      · rw [if_pos h4] at hdM; omega
      · rw [if_neg h4] at hdM; omega
  simp only [days_from_civil]
  rw [if_neg (by omega), if_neg (by omega)]
  refine ⟨_, rfl, ?_⟩
  rw [floor400]
  rw [Int.tdiv_eq_ediv
      (show (0:Int) ≤ 153 * (m + (if 2 < m then -3 else 9)) + 2 by split <;> omega)
      (by norm_num : (0:Int) ≤ 5)]
  rw [Int.tdiv_eq_ediv
      (show (0:Int) ≤ y - (if m ≤ 2 then 1 else 0) - (y - (if m ≤ 2 then 1 else 0)) / 400 * 400
        by omega)
      (by norm_num : (0:Int) ≤ 4)]
  rw [Int.tdiv_eq_ediv
      (show (0:Int) ≤ y - (if m ≤ 2 then 1 else 0) - (y - (if m ≤ 2 then 1 else 0)) / 400 * 400
        by omega)
      (by norm_num : (0:Int) ≤ 100)]
  set Y := y - (if m ≤ 2 then 1 else 0) with hY
  set E := Y / 400 with hE1
  set O := Y - E * 400 with hO
  set J := (153 * (m + (if 2 < m then -3 else 9)) + 2) / 5 + d - 1 with hJ
  have h1 : 0 ≤ O := by omega
  have h2 : O ≤ 399 := by omega
  have h3 : 0 ≤ J := by rw [hJ]; split <;> omega
  have hd2x : J ≤ lastD O := by
    have h364 : (364:Int) ≤ lastD O := by unfold lastD; split <;> omega
    by_cases hc : m = 2 ∧ d = 29
    · obtain ⟨hcm, hcd⟩ := hc
      have hl : isLeapYear y = true := by
        unfold daysInMonth at hd2
        rw [if_pos hcm] at hd2
        rcases em (isLeapYear y = true) with hl | hl
        · exact hl
        · rw [if_neg hl] at hd2; omega
      have hYm : Y = y - 1 := by rw [hY, if_pos (by omega : m ≤ 2)]
      have hlY : leapYOE O = true := by
        simp only [isLeapYear, Bool.and_eq_true, beq_iff_eq, Bool.or_eq_true, bne_iff_ne] at hl
        simp only [leapYOE, Bool.and_eq_true, beq_iff_eq, Bool.or_eq_true, bne_iff_ne]
        omega
      have hJ365 : J = 365 := by
        rw [hJ, hcm, hcd]
        norm_num
      unfold lastD
      rw [hlY]
      rw [hJ365]
      norm_num
    · have hle : J ≤ 364 := by
        have h28 : m = 2 → d ≤ 28 := by
          intro hm9
          rw [if_pos hm9] at hdM
          rcases em (d = 29) with h29 | h29
          · exact absurd ⟨hm9, h29⟩ hc
          · omega
        rw [hJ]
        split <;> omega
      omega
  rw [civil_from_days_eq (E * 146097 + (O * 365 + O / 4 - O / 100 + J) - 719468) E O J
      (by unfold fE; ring) h1 h2 h3 hd2x]
  obtain ⟨hM, hD⟩ := month_reconstruct m d J hm1 hm2 hd1 hdM hJ
  have hyear : O + E * 400 + (if m ≤ 2 then 1 else 0) = y := by
    rcases em (m ≤ 2) with h | h
    · rw [if_pos h]; rw [if_pos h] at hY; omega
    · rw [if_neg h]; rw [if_neg h] at hY; omega
  rw [hM, hD, hyear]

/-- Claim C7 (counterexample): with the claim's bounds month ∈ [1,12] and
day ∈ [1,31] the round trip is false: `days_from_civil` does not validate the
day against the month length, so the non-date 2024-02-30 maps to the day
count of 2024-03-01 and converts back to (2024, 3, 1), not (2024, 2, 30). -/
theorem c7_counterexample :
    ¬ (∀ y m d : Int, 1 ≤ m → m ≤ 12 → 1 ≤ d → d ≤ 31 →
        (days_from_civil y m d).bind civil_from_days = some (y, m, d)) := by
  intro h
  exact absurd (h 2024 2 30 (by norm_num) (by norm_num) (by norm_num) (by norm_num)) (by decide)

/-- Claim C7 (amended): for every genuine Gregorian date — month ∈ [1,12]
and day between 1 and the length of that month in that year — converting to
a day count since 1970-01-01 and back yields the same triple; the day count
of 1970-01-01 is 0 and day count 0 converts back to (1970, 1, 1). -/
theorem c7_calendar_roundtrip :
    (∀ y m d : Int, 1 ≤ m → m ≤ 12 → 1 ≤ d → d ≤ daysInMonth y m →
      ∃ D, days_from_civil y m d = some D ∧ civil_from_days D = some (y, m, d)) ∧
    days_from_civil 1970 1 1 = some 0 ∧
    civil_from_days 0 = some (1970, 1, 1) :=
  ⟨civil_roundtrip, by decide, by decide⟩

/-- Witness for C7 at 2024-03-15 (and at the claimed leap day 2024-02-29). -/
theorem c7_calendar_roundtrip_witness :
    (∃ D, days_from_civil 2024 3 15 = some D ∧ civil_from_days D = some (2024, 3, 15)) ∧
    (∃ D, days_from_civil 2024 2 29 = some D ∧ civil_from_days D = some (2024, 2, 29)) :=
  ⟨c7_calendar_roundtrip.1 2024 3 15 (by norm_num) (by norm_num) (by norm_num) (by decide),
   c7_calendar_roundtrip.1 2024 2 29 (by norm_num) (by norm_num) (by norm_num) (by decide)⟩

/-- Claim C9 (counterexample): `civil_from_days` does not reject negative day
counts — day count −1 converts to 1969-12-31 rather than to no value. -/
theorem c9_counterexample :
    civil_from_days (-1) = some (1969, 12, 31) ∧ civil_from_days (-1) ≠ none := by
  constructor
  · decide
  · decide

/-- Claim C9 (amended): the rejection of pre-epoch inputs happens in
`unix_to_ymd`, not in `civil_from_days`: every negative timestamp yields no
value, and on non-negative timestamps `unix_to_ymd` forwards a non-negative
day count to `civil_from_days`, so `civil_from_days` is never invoked on a
negative day count. -/
theorem c9_negative_rejected :
    (∀ ts : Int, ts < 0 → unix_to_ymd ts = none) ∧
    (∀ ts : Int, 0 ≤ ts →
      unix_to_ymd ts = civil_from_days (ts.tdiv 86400) ∧ 0 ≤ ts.tdiv 86400) := by
  constructor
  · intro ts h
    unfold unix_to_ymd
    rw [if_pos h]
  · intro ts h
    refine ⟨?_, ?_⟩
    · unfold unix_to_ymd
      rw [if_neg (by omega)]
    · rw [Int.tdiv_eq_ediv h (by norm_num)]
      omega

/-- Witness for C9 at timestamps −1 and 86401. -/
theorem c9_negative_rejected_witness :
    unix_to_ymd (-1) = none ∧ unix_to_ymd 86401 = civil_from_days 1 := by
  refine ⟨c9_negative_rejected.1 (-1) (by norm_num), ?_⟩
  have h := (c9_negative_rejected.2 86401 (by norm_num)).1
  have h2 : Int.tdiv 86401 86400 = 1 := by decide
  rwa [h2] at h

/-! ## Claim C4 : MergeBlockers::is_clear -/

/-- Claim C4 (confirmed): `is_clear()` returns true iff there are no
conflicts, the branch is not behind base, the failing-required-checks list is
empty, and either no approval count is required or the current approval count
is at least the required count. -/
theorem c4_is_clear_iff (mb : MergeBlockers) :
    mb.is_clear = true ↔
      mb.has_conflicts = false ∧ mb.is_behind_base = false ∧
      mb.failing_required_checks = [] ∧
      (mb.required_approvals = none ∨
        ∃ r, mb.required_approvals = some r ∧ r ≤ mb.current_approvals) := by
  obtain ⟨hc, ra, ca, rc, frc, bb⟩ := mb
  simp only [MergeBlockers.is_clear, Bool.and_eq_true, Bool.not_eq_true']
  cases ra with
  | none => simp [List.isEmpty_iff, and_assoc]
  | some r =>
    simp [List.isEmpty_iff]
    tauto

/-- Witness for C4: the spec's example instances (required 2 / current 2 is
clear; required 2 / current 1 is not). -/
theorem c4_is_clear_iff_witness :
    (MergeBlockers.mk false (some 2) 2 [] [] false).is_clear = true ∧
    (MergeBlockers.mk false (some 2) 1 [] [] false).is_clear = false := by
  constructor
  · exact (c4_is_clear_iff _).mpr ⟨rfl, rfl, rfl, Or.inr ⟨2, rfl, by norm_num⟩⟩
  · decide

/-! ## Claim C2 : identity merge never downgrades the authored flag -/

theorem merge_into_lookup_key (m : PrMap) (pr : Pr) :
    merge_into m pr pr.pr_key =
      some (match m pr.pr_key with
            | some existing =>
              if existing.is_viewer_author then { pr with is_viewer_author := true } else pr
            | none => pr) := by
  unfold merge_into
  cases h : m pr.pr_key with
  | none => simp [h]
  | some existing =>
    cases hex : existing.is_viewer_author <;> simp [h, hex]

theorem merge_into_lookup_other (m : PrMap) (pr : Pr) (k : String) (h : k ≠ pr.pr_key) :
    merge_into m pr k = m k := by
  unfold merge_into
  cases hm : m pr.pr_key with
  | none => simp [h]
  | some existing =>
    cases hex : existing.is_viewer_author <;> simp [h, hex]

theorem merge_preserves_authored (m : PrMap) (pr : Pr) (K : String) (pr0 : Pr)
    (h : m K = some pr0) (ha : pr0.is_viewer_author = true) :
    ∃ pr1, merge_into m pr K = some pr1 ∧ pr1.is_viewer_author = true := by
  by_cases hk : K = pr.pr_key
  · subst hk
    refine ⟨{ pr with is_viewer_author := true }, ?_, rfl⟩
    rw [merge_into_lookup_key, h]
    simp [ha]
  · rw [merge_into_lookup_other _ _ _ hk]
    exact ⟨pr0, h, ha⟩

theorem foldl_merge_preserves_authored (prs : List Pr) :
    ∀ (m : PrMap) (K : String) (pr0 : Pr), m K = some pr0 → pr0.is_viewer_author = true →
      ∃ pr1, (prs.foldl merge_into m) K = some pr1 ∧ pr1.is_viewer_author = true := by
  induction prs with
  | nil => exact fun m K pr0 h ha => ⟨pr0, h, ha⟩
  | cons pr rest ih =>
    intro m K pr0 h ha
    obtain ⟨pr1, h1, ha1⟩ := merge_preserves_authored m pr K pr0 h ha
    exact ih (merge_into m pr) K pr1 h1 ha1

/-- Claim C2 (confirmed): once a record with `is_viewer_author = true` has
been inserted under key `K`, any later insertion of a record with the same
key and `is_viewer_author = false` — with arbitrarily many other merges in
between — stores under `K` exactly the later record with its authored flag
forced back to true. -/
theorem c2_authored_flag_monotone (m0 : PrMap) (K : String) (prA : Pr) (mid : List Pr)
    (prB : Pr) (hA : prA.pr_key = K) (haA : prA.is_viewer_author = true)
    (hB : prB.pr_key = K) (_haB : prB.is_viewer_author = false) :
    merge_into (mid.foldl merge_into (merge_into m0 prA)) prB K
      = some { prB with is_viewer_author := true } := by
  subst hB
  have h1 : ∃ pr1, merge_into m0 prA prB.pr_key = some pr1 ∧ pr1.is_viewer_author = true := by
    rw [← hA]
    rw [merge_into_lookup_key]
    cases h : m0 prA.pr_key with
    | none => exact ⟨prA, rfl, haA⟩
    | some ex =>
      cases hex : ex.is_viewer_author
      · refine ⟨prA, ?_, haA⟩
        simp [hex]
      · refine ⟨{ prA with is_viewer_author := true }, ?_, rfl⟩
        simp [hex]
  obtain ⟨pr1, h1, ha1⟩ := h1
  obtain ⟨pr2, h2, ha2⟩ := foldl_merge_preserves_authored mid _ _ pr1 h1 ha1
  rw [merge_into_lookup_key, h2]
  simp [ha2]

/-- Sample authored record for the C2 witness. -/
def samplePrA : Pr :=
  { pr_key := "o/r#1", owner := "o", repo := "r", number := 1, author := "alice",
    title := "tA", url := "uA", updated_at_unix := 10, last_commit_sha := none,
    ci_state := CiState.None, ci_checks := [], review_state := ReviewState.None,
    is_draft := false, mergeable := none, merge_state_status := none,
    is_viewer_author := true, merge_blockers := none }

/-- Sample review-requested record for the C2 witness. -/
def samplePrB : Pr :=
  { pr_key := "o/r#1", owner := "o", repo := "r", number := 1, author := "alice",
    title := "tB", url := "uB", updated_at_unix := 20, last_commit_sha := none,
    ci_state := CiState.None, ci_checks := [], review_state := ReviewState.Requested,
    is_draft := false, mergeable := none, merge_state_status := none,
    is_viewer_author := false, merge_blockers := none }

/-- Witness for C2: concrete authored-then-requested merge under one key. -/
theorem c2_authored_flag_monotone_witness :
    merge_into (([] : List Pr).foldl merge_into (merge_into emptyPrMap samplePrA)) samplePrB
        "o/r#1"
      = some { samplePrB with is_viewer_author := true } :=
  c2_authored_flag_monotone emptyPrMap "o/r#1" samplePrA [] samplePrB rfl rfl rfl rfl

/-! ## Claim C3 : CI roll-up derivation -/

/-- The platform-roll-up fallback branch of `derive_ci_state`. -/
def rollup_fallback (rollup : Option String) : CiState :=
  match rollup.getD "none" with
  | "SUCCESS" => CiState.Success
  | "FAILURE" => CiState.Failure
  | "PENDING" => CiState.Running
  | "IN_PROGRESS" => CiState.Running
  | _ => CiState.None

theorem perm_any_eq {α : Type} {l1 l2 : List α} (h : l1.Perm l2) (p : α → Bool) :
    l1.any p = l2.any p := by
  cases hb : l2.any p
  · rw [List.any_eq_false] at hb ⊢
    intro x hx
    exact hb x (h.mem_iff.mp hx)
  · rw [List.any_eq_true] at hb ⊢
    obtain ⟨x, hx, hpx⟩ := hb
    exact ⟨x, h.mem_iff.mpr hx, hpx⟩

/-- Claim C3 (counterexample): the fall-back to the platform roll-up string is
not restricted to an empty check list — a non-empty list whose only check is
`Neutral` also falls back, so with a non-empty list the derived state still
depends on the roll-up string. -/
theorem c3_counterexample :
    ¬ (∀ (r1 r2 : Option String) (checks : List CiCheck), checks ≠ [] →
        derive_ci_state r1 checks = derive_ci_state r2 checks) := by
  intro h
  exact absurd
    (h (some "SUCCESS") (some "FAILURE")
      [{ name := "lint", state := CiCheckState.Neutral, url := none, started_at_unix := none }]
      (by simp))
    (by decide)

/-- Claim C3 (amended): the derivation follows the precedence
running > failure > success over the per-check list, independently of list
order, and falls back to the platform roll-up string (SUCCESS → success,
FAILURE → failure, PENDING or IN_PROGRESS → running, anything else → none)
exactly when no check in the list has state running, failure or success — in
particular when the list is empty, but also when it only contains neutral or
none checks. -/
theorem c3_ci_rollup_derivation :
    (∀ (rollup : Option String) (checks : List CiCheck),
      ((∃ c ∈ checks, c.state = CiCheckState.Running) →
        derive_ci_state rollup checks = CiState.Running) ∧
      ((∀ c ∈ checks, c.state ≠ CiCheckState.Running) →
        (∃ c ∈ checks, c.state = CiCheckState.Failure) →
        derive_ci_state rollup checks = CiState.Failure) ∧
      ((∀ c ∈ checks, c.state ≠ CiCheckState.Running) →
        (∀ c ∈ checks, c.state ≠ CiCheckState.Failure) →
        (∃ c ∈ checks, c.state = CiCheckState.Success) →
        derive_ci_state rollup checks = CiState.Success) ∧
      ((∀ c ∈ checks, c.state ≠ CiCheckState.Running ∧ c.state ≠ CiCheckState.Failure ∧
          c.state ≠ CiCheckState.Success) →
        derive_ci_state rollup checks = rollup_fallback rollup)) ∧
    (∀ (rollup : Option String) (checks1 checks2 : List CiCheck), checks1.Perm checks2 →
      derive_ci_state rollup checks1 = derive_ci_state rollup checks2) := by
  constructor
  · intro rollup checks
    refine ⟨?_, ?_, ?_, ?_⟩
    · intro h
      obtain ⟨c, hc, hs⟩ := h
      have ha : checks.any (fun c => c.state == CiCheckState.Running) = true :=
        List.any_eq_true.mpr ⟨c, hc, by simp [hs]⟩
      unfold derive_ci_state
      simp [ha]
    · intro hno h
      obtain ⟨c, hc, hs⟩ := h
      have ha : checks.any (fun c => c.state == CiCheckState.Running) = false :=
        List.any_eq_false.mpr (fun x hx => by simp [hno x hx])
      have hf : checks.any (fun c => c.state == CiCheckState.Failure) = true :=
        List.any_eq_true.mpr ⟨c, hc, by simp [hs]⟩
      unfold derive_ci_state
      simp [ha, hf]
    · intro hno hnf h
      obtain ⟨c, hc, hs⟩ := h
      have ha : checks.any (fun c => c.state == CiCheckState.Running) = false :=
        List.any_eq_false.mpr (fun x hx => by simp [hno x hx])
      have hf : checks.any (fun c => c.state == CiCheckState.Failure) = false :=
        List.any_eq_false.mpr (fun x hx => by simp [hnf x hx])
      have hsuc : checks.any (fun c => c.state == CiCheckState.Success) = true :=
        List.any_eq_true.mpr ⟨c, hc, by simp [hs]⟩
      unfold derive_ci_state
      simp [ha, hf, hsuc]
    · intro hall
      have ha : checks.any (fun c => c.state == CiCheckState.Running) = false :=
        List.any_eq_false.mpr (fun x hx => by simp [(hall x hx).1])
      have hf : checks.any (fun c => c.state == CiCheckState.Failure) = false :=
        List.any_eq_false.mpr (fun x hx => by simp [(hall x hx).2.1])
      have hsuc : checks.any (fun c => c.state == CiCheckState.Success) = false :=
        List.any_eq_false.mpr (fun x hx => by simp [(hall x hx).2.2])
      unfold derive_ci_state rollup_fallback
      simp [ha, hf, hsuc]
  · intro rollup checks1 checks2 hp
    unfold derive_ci_state
    rw [perm_any_eq hp, perm_any_eq hp, perm_any_eq hp]

/-- Witness for C3: the spec's test — one running and one success check
derive running in either order. -/
theorem c3_ci_rollup_derivation_witness :
    derive_ci_state none
        [{ name := "a", state := CiCheckState.Running, url := none, started_at_unix := none },
         { name := "b", state := CiCheckState.Success, url := none, started_at_unix := none }]
      = CiState.Running ∧
    derive_ci_state none
        [{ name := "b", state := CiCheckState.Success, url := none, started_at_unix := none },
         { name := "a", state := CiCheckState.Running, url := none, started_at_unix := none }]
      = CiState.Running := by
  constructor
  · exact ((c3_ci_rollup_derivation.1 none _).1
      ⟨{ name := "a", state := CiCheckState.Running, url := none, started_at_unix := none },
        by simp, rfl⟩)
  · exact ((c3_ci_rollup_derivation.1 none _).1
      ⟨{ name := "a", state := CiCheckState.Running, url := none, started_at_unix := none },
        by simp, rfl⟩)

/-! ## Claim C6 : review-state precedence -/

/-- Claim C6 (confirmed): the viewer is detected as an explicitly requested
reviewer exactly when some requested-reviewer entry is an individual user
(`__typename = "User"`) whose login equals the viewer login; in that case the
derived review state is `Requested` regardless of the review-decision field,
and otherwise it is `Approved` exactly when the review decision is
"APPROVED" and `None` in all other cases. -/
theorem c6_review_state_precedence (node : PullRequestNode) (viewer_login : String) :
    (is_review_requested_by_user node viewer_login = true ↔
      ∃ rr ns r n, node.review_requests = some rr ∧ rr.nodes = some ns ∧ n ∈ ns ∧
        n.requested_reviewer = some r ∧ r.typename = some "User" ∧
        r.login = some viewer_login) ∧
    (is_review_requested_by_user node viewer_login = true →
      map_review_state node (is_review_requested_by_user node viewer_login)
        = ReviewState.Requested) ∧
    (is_review_requested_by_user node viewer_login = false →
      map_review_state node (is_review_requested_by_user node viewer_login)
        = if node.review_decision = some "APPROVED" then ReviewState.Approved
          else ReviewState.None) := by
  refine ⟨?_, ?_, ?_⟩
  · constructor
    · intro h
      unfold is_review_requested_by_user at h
      cases hrr : node.review_requests with
      | none => simp [hrr] at h
      | some rr =>
        simp only [hrr] at h
        cases hns : rr.nodes with
        | none => simp [hns] at h
        | some ns =>
          simp only [hns] at h
          rw [List.any_eq_true] at h
          obtain ⟨n, hn, hp⟩ := h
          cases hr : n.requested_reviewer with
          | none => simp [hr] at hp
          | some r =>
            simp only [hr, Bool.and_eq_true, beq_iff_eq] at hp
            exact ⟨rr, ns, r, n, by simp [hrr], by simp [hns], hn, by simp [hr], hp.1, hp.2⟩
    · rintro ⟨rr, ns, r, n, hrr, hns, hn, hr, ht, hl⟩
      unfold is_review_requested_by_user
      simp only [hrr, hns, List.any_eq_true]
      refine ⟨n, hn, ?_⟩
      simp [hr, ht, hl]
  · intro h
    rw [h]
    unfold map_review_state
    simp
  · intro h
    rw [h]
    unfold map_review_state
    simp only [Bool.false_eq_true, if_false]
    cases hd : node.review_decision with
    | none => simp
    | some s =>
      by_cases hs : s = "APPROVED"
      · subst hs
        simp
      · split
        · rename_i heq
          simp at heq
          exact absurd heq hs
        · rw [if_neg (by simp [hs])]

/-- Sample repository for the concrete nodes below. -/
def sampleRepo : Repository := ⟨"r", ⟨"o"⟩⟩

/-- A node whose review decision is "APPROVED" while the viewer "alice" is an
explicit individual requested reviewer. -/
def sampleReviewedNode : PullRequestNode :=
  { number := 7, title := "t", url := "u", updated_at := "2024-03-15T10:30:00Z",
    repository := sampleRepo, author := some ⟨"bob"⟩,
    review_requests := some ⟨some [⟨some ⟨some "User", some "alice"⟩⟩]⟩,
    head_ref_oid := none, review_decision := some "APPROVED", is_draft := none,
    mergeable := none, merge_state_status := none, commits := none, reviews := none,
    base_ref := none }

/-- Witness for C6: requested wins over an "APPROVED" decision. -/
theorem c6_review_state_precedence_witness :
    map_review_state sampleReviewedNode (is_review_requested_by_user sampleReviewedNode "alice")
      = ReviewState.Requested :=
  (c6_review_state_precedence sampleReviewedNode "alice").2.1 (by decide)

/-! ## Claim C5 : merge-blocker derivation and surfacing -/

theorem string_contains_iff (l : List String) (a : String) : l.contains a = true ↔ a ∈ l := by
  induction l with
  | nil => simp
  | cons x xs ih =>
    simp only [List.contains_cons, Bool.or_eq_true, beq_iff_eq, List.mem_cons, ih]

/-- Claim C5 (confirmed): the failing-required-checks list is exactly the
required check names filtered by absence from the set of names of checks in
state success (a required check with no matching CI check counts as
failing); `to_pr` attaches the computed blockers precisely when they are not
clear and attaches nothing when they are clear. -/
theorem c5_merge_blockers_surfacing (node : PullRequestNode) (checks : List CiCheck) :
    ((compute_merge_blockers node checks).failing_required_checks =
      (compute_merge_blockers node checks).required_checks.filter
        (fun name =>
          !(((checks.filter fun c => c.state == CiCheckState.Success).map fun c => c.name).contains
            name))) ∧
    (∀ name, name ∈ (compute_merge_blockers node checks).failing_required_checks ↔
      name ∈ (compute_merge_blockers node checks).required_checks ∧
        ¬ ∃ c ∈ checks, c.state = CiCheckState.Success ∧ c.name = name) ∧
    (∀ (is_requested : Bool) (viewer_login : String) (pr : Pr),
      to_pr node is_requested viewer_login = some pr →
      (pr.merge_blockers = none ↔
        (compute_merge_blockers node (map_ci_checks node)).is_clear = true) ∧
      (∀ mb, pr.merge_blockers = some mb →
        mb = compute_merge_blockers node (map_ci_checks node))) := by
  have h1 : (compute_merge_blockers node checks).failing_required_checks =
      (compute_merge_blockers node checks).required_checks.filter
        (fun name =>
          !(((checks.filter fun c => c.state == CiCheckState.Success).map fun c => c.name).contains
            name)) := rfl
  refine ⟨h1, ?_, ?_⟩
  · intro name
    rw [h1, List.mem_filter]
    have h2 : (!(((checks.filter fun c => c.state == CiCheckState.Success).map
        fun c => c.name).contains name)) = true ↔
        ¬ ∃ c ∈ checks, c.state = CiCheckState.Success ∧ c.name = name := by
      rw [Bool.not_eq_true', ← Bool.not_eq_true]
      rw [string_contains_iff]
      simp only [List.mem_map, List.mem_filter, beq_iff_eq]
      constructor
      · intro h hex
        obtain ⟨c, hc, hs, hn⟩ := hex
        exact h ⟨c, ⟨hc, hs⟩, hn⟩
      · intro h hex
        obtain ⟨c, ⟨hc, hs⟩, hn⟩ := hex
        exact h ⟨c, hc, hs, hn⟩
    rw [h2]
  · intro is_requested viewer_login pr h
    simp only [to_pr] at h
    cases hp : parse_github_datetime_to_unix node.updated_at with
    | none => rw [hp] at h; exact absurd h (by simp)
    | some u =>
      rw [hp] at h
      simp only [Option.some.injEq] at h
      subst h
      by_cases hclear : (compute_merge_blockers node (map_ci_checks node)).is_clear = true
      · constructor
        · simp [hclear]
        · intro mb hmb
          simp [hclear] at hmb
      · constructor
        · simp [hclear]
        · intro mb hmb
          simp only [if_neg hclear, Option.some.injEq] at hmb
          exact hmb.symm

/-- A node with no commits, no protection rule and a parseable timestamp
(all merge blockers clear). -/
def sampleCleanNode : PullRequestNode :=
  { number := 3, title := "t", url := "u", updated_at := "2024-03-15T10:30:00Z",
    repository := sampleRepo, author := none, review_requests := none,
    head_ref_oid := none, review_decision := none, is_draft := none,
    mergeable := none, merge_state_status := none, commits := none, reviews := none,
    base_ref := none }

/-- Witness for C5: a clear node carries no blocker detail. -/
theorem c5_merge_blockers_surfacing_witness :
    ∃ pr, to_pr sampleCleanNode false "alice" = some pr ∧ pr.merge_blockers = none := by
  have hsome : (to_pr sampleCleanNode false "alice").isSome = true := by decide
  obtain ⟨pr, hpr⟩ := Option.isSome_iff_exists.mp hsome
  refine ⟨pr, hpr, ?_⟩
  have h := ((c5_merge_blockers_surfacing sampleCleanNode
      (map_ci_checks sampleCleanNode)).2.2) false "alice" pr hpr
  exact h.1.mpr (by decide)

/-! ## Claim C8 : timestamp parser acceptance and truncation -/

theorem rsplit_none_of_not_mem (c : Char) : ∀ l : List Char, c ∉ l → rsplitOnce c l = none := by
  intro l
  induction l with
  | nil => intro _; rfl
  | cons x xs ih =>
    intro h
    have hx : x ≠ c := fun he => h (by simp [he])
    have hxs : c ∉ xs := fun he => h (List.mem_cons_of_mem _ he)
    unfold rsplitOnce
    rw [ih hxs]
    simp [hx]

theorem rsplit_last (c : Char) (tz : List Char) (htz : c ∉ tz) :
    ∀ main : List Char, rsplitOnce c (main ++ c :: tz) = some (main, tz) := by
  intro main
  induction main with
  | nil =>
    show rsplitOnce c (c :: tz) = some ([], tz)
    unfold rsplitOnce
    rw [rsplit_none_of_not_mem c tz htz]
    simp
  | cons x xs ih =>
    show rsplitOnce c (x :: (xs ++ c :: tz)) = _
    unfold rsplitOnce
    rw [ih]

theorem split_none_of_not_mem (c : Char) : ∀ l : List Char, c ∉ l → splitOnce c l = none := by
  intro l
  induction l with
  | nil => intro _; rfl
  | cons x xs ih =>
    intro h
    have hx : x ≠ c := fun he => h (by simp [he])
    have hxs : c ∉ xs := fun he => h (List.mem_cons_of_mem _ he)
    unfold splitOnce
    rw [ih hxs]
    simp [hx]

theorem split_first (c : Char) (b : List Char) :
    ∀ a : List Char, c ∉ a → splitOnce c (a ++ c :: b) = some (a, b) := by
  intro a
  induction a with
  | nil =>
    intro _
    show splitOnce c (c :: b) = some ([], b)
    unfold splitOnce
    simp
  | cons x xs ih =>
    intro h
    have hx : x ≠ c := fun he => h (by simp [he])
    have hxs : c ∉ xs := fun he => h (List.mem_cons_of_mem _ he)
    show splitOnce c (x :: (xs ++ c :: b)) = _
    unfold splitOnce
    rw [ih hxs]
    simp [hx]

theorem stripFrac_of_not_mem (main : List Char) (h : '.' ∉ main) : stripFrac main = main := by
  unfold stripFrac
  rw [split_none_of_not_mem _ _ h]

/-- The slice / integer-parse / separator conditions whose failure the parser
rejects (claim C8's "field fails to parse as an integer or separator in the
wrong position"). -/
def badField (main : List Char) : Bool :=
  ((sliceGet main 0 4).bind parseI32).isNone ||
  sliceGet main 4 5 ≠ some ['-'] ||
  ((sliceGet main 5 7).bind parseU32).isNone ||
  sliceGet main 7 8 ≠ some ['-'] ||
  ((sliceGet main 8 10).bind parseU32).isNone ||
  sliceGet main 10 11 ≠ some ['T'] ||
  ((sliceGet main 11 13).bind parseU32).isNone ||
  sliceGet main 13 14 ≠ some [':'] ||
  ((sliceGet main 14 16).bind parseU32).isNone ||
  sliceGet main 16 17 ≠ some [':'] ||
  ((sliceGet main 17 19).bind parseU32).isNone

theorem parseDatePart_eq_some {main : List Char} {ymd : Int × Nat × Nat}
    (h : parseDatePart main = some ymd) :
    ((sliceGet main 0 4).bind parseI32).isSome = true ∧
    sliceGet main 4 5 = some ['-'] ∧
    ((sliceGet main 5 7).bind parseU32).isSome = true ∧
    sliceGet main 7 8 = some ['-'] ∧
    ((sliceGet main 8 10).bind parseU32).isSome = true := by
  unfold parseDatePart at h
  simp only [Option.bind_eq_some] at h
  obtain ⟨s04, h04, year, hyear, h⟩ := h
  obtain ⟨s45, h45, h⟩ := h
  by_cases hc45 : s45 ≠ ['-']
  · rw [if_pos hc45] at h; exact absurd h (by simp)
  · rw [if_neg hc45] at h
    simp only [Option.bind_eq_some] at h
    obtain ⟨s57, h57, mon, hmon, h⟩ := h
    obtain ⟨s78, h78, h⟩ := h
    by_cases hc78 : s78 ≠ ['-']
    · rw [if_pos hc78] at h; exact absurd h (by simp)
    · rw [if_neg hc78] at h
      simp only [Option.bind_eq_some] at h
      obtain ⟨s810, h810, day, hday, h⟩ := h
      push_neg at hc45 hc78
      subst hc45 hc78
      refine ⟨?_, h45, ?_, h78, ?_⟩
      · rw [h04]; simp [hyear]
      · rw [h57]; simp [hmon]
      · rw [h810]; simp [hday]

theorem parseTimePart_eq_some {main : List Char} {hms : Nat × Nat × Nat}
    (h : parseTimePart main = some hms) :
    sliceGet main 10 11 = some ['T'] ∧
    ((sliceGet main 11 13).bind parseU32).isSome = true ∧
    sliceGet main 13 14 = some [':'] ∧
    ((sliceGet main 14 16).bind parseU32).isSome = true ∧
    sliceGet main 16 17 = some [':'] ∧
    ((sliceGet main 17 19).bind parseU32).isSome = true := by
  unfold parseTimePart at h
  simp only [Option.bind_eq_some] at h
  obtain ⟨s1011, h1011, h⟩ := h
  by_cases hc1 : s1011 ≠ ['T']
  · rw [if_pos hc1] at h; exact absurd h (by simp)
  · rw [if_neg hc1] at h
    simp only [Option.bind_eq_some] at h
    obtain ⟨s1113, h1113, hour, hhour, h⟩ := h
    obtain ⟨s1314, h1314, h⟩ := h
    by_cases hc2 : s1314 ≠ [':']
    · rw [if_pos hc2] at h; exact absurd h (by simp)
    · rw [if_neg hc2] at h
      simp only [Option.bind_eq_some] at h
      obtain ⟨s1416, h1416, minute, hminute, h⟩ := h
      obtain ⟨s1617, h1617, h⟩ := h
      by_cases hc3 : s1617 ≠ [':']
      · rw [if_pos hc3] at h; exact absurd h (by simp)
      · rw [if_neg hc3] at h
        simp only [Option.bind_eq_some] at h
        obtain ⟨s1719, h1719, second, hsecond, h⟩ := h
        push_neg at hc1 hc2 hc3
        subst hc1 hc2 hc3
        refine ⟨h1011, ?_, h1314, ?_, h1617, ?_⟩
        · rw [h1113]; simp [hhour]
        · rw [h1416]; simp [hminute]
        · rw [h1719]; simp [hsecond]

theorem badField_chain_none {main : List Char} (hb : badField main = true)
    (g : Int × Nat × Nat → Nat × Nat × Nat → Option Int) :
    ((parseDatePart main).bind fun ymd => (parseTimePart main).bind fun hms => g ymd hms)
      = none := by
  cases hd : parseDatePart main with
  | none => rfl
  | some ymd =>
    cases ht : parseTimePart main with
    | none => simp [ht]
    | some hms =>
      exfalso
      obtain ⟨d1, d2, d3, d4, d5⟩ := parseDatePart_eq_some hd
      obtain ⟨t1, t2, t3, t4, t5, t6⟩ := parseTimePart_eq_some ht
      unfold badField at hb
      simp only [Bool.or_eq_true] at hb
      rcases hb with ((((((((((h | h) | h) | h) | h) | h) | h) | h) | h) | h) | h)
      · rw [Option.isNone_iff_eq_none] at h
        exact absurd d1 (by simp [h])
      · exact absurd d2 (of_decide_eq_true h)
      · rw [Option.isNone_iff_eq_none] at h
        exact absurd d3 (by simp [h])
      · exact absurd d4 (of_decide_eq_true h)
      · rw [Option.isNone_iff_eq_none] at h
        exact absurd d5 (by simp [h])
      · exact absurd t1 (of_decide_eq_true h)
      · rw [Option.isNone_iff_eq_none] at h
        exact absurd t2 (by simp [h])
      · exact absurd t3 (of_decide_eq_true h)
      · rw [Option.isNone_iff_eq_none] at h
        exact absurd t4 (by simp [h])
      · exact absurd t5 (of_decide_eq_true h)
      · rw [Option.isNone_iff_eq_none] at h
        exact absurd t6 (by simp [h])

/-- Claim C8 (confirmed): the parser rejects inputs without a `Z`, inputs with
a non-empty suffix after the last `Z`, inputs whose main portion is not
exactly 19 characters after stripping fractional seconds, and inputs with a
non-integer field or misplaced separator; fractional seconds are truncated,
so `.123` changes nothing; the three concrete spec examples evaluate as
stated. -/
theorem c8_parser_acceptance :
    parse_github_datetime_to_unix "2024-03-15T10:30:00Z" = some 1710498600 ∧
    parse_github_datetime_to_unix "2024-03-15T10:30:00.123Z" = some 1710498600 ∧
    parse_github_datetime_to_unix "2024-03-15T10:30:00+02:00" = none ∧
    (∀ s : String, 'Z' ∉ rustTrim s.data → parse_github_datetime_to_unix s = none) ∧
    (∀ (s : String) (main tz : List Char), rustTrim s.data = main ++ 'Z' :: tz →
      'Z' ∉ tz → tz ≠ [] → parse_github_datetime_to_unix s = none) ∧
    (∀ (s : String) (main : List Char), rustTrim s.data = main ++ ['Z'] →
      (stripFrac main).length ≠ 19 → parse_github_datetime_to_unix s = none) ∧
    (∀ (s : String) (main : List Char), rustTrim s.data = main ++ ['Z'] →
      badField (stripFrac main) = true → parse_github_datetime_to_unix s = none) ∧
    (∀ main frac : List Char, '.' ∉ main →
      parseDateTime (main ++ '.' :: (frac ++ ['Z'])) = parseDateTime (main ++ ['Z'])) := by
  refine ⟨by decide, by decide, by decide, ?_, ?_, ?_, ?_, ?_⟩
  · intro s h
    unfold parse_github_datetime_to_unix parseDateTime
    rw [rsplit_none_of_not_mem _ _ h]
  · intro s main tz htrim hz htznil
    unfold parse_github_datetime_to_unix parseDateTime
    rw [htrim, rsplit_last _ _ hz]
    simp [htznil]
  · intro s main htrim hlen
    unfold parse_github_datetime_to_unix parseDateTime
    rw [htrim, rsplit_last _ _ (by simp)]
    simp only [ne_eq, not_true_eq_false, if_false, ite_not]
    rw [if_neg (by simpa using hlen)]
  · intro s main htrim hbad
    unfold parse_github_datetime_to_unix parseDateTime
    rw [htrim, rsplit_last _ _ (by simp)]
    by_cases hlen : (stripFrac main).length = 19
    · simp only [ne_eq, not_true_eq_false, if_false]
      rw [if_neg (by simpa using hlen)]
      exact badField_chain_none hbad _
    · simp only [ne_eq, not_true_eq_false, if_false]
      rw [if_pos (by simpa using hlen)]
  · intro main frac hdot
    have hassoc : main ++ '.' :: (frac ++ ['Z']) = (main ++ '.' :: frac) ++ 'Z' :: [] := by
      simp
    unfold parseDateTime
    rw [hassoc, rsplit_last _ _ (by simp)]
    rw [show main ++ ['Z'] = main ++ 'Z' :: [] from rfl, rsplit_last _ _ (by simp)]
    have h1 : stripFrac (main ++ '.' :: frac) = main := by
      unfold stripFrac
      rw [split_first _ _ _ hdot]
    have h2 : stripFrac main = main := stripFrac_of_not_mem main hdot
    simp only [h1, h2]

/-- Witness for C8's universally quantified rejection and truncation parts. -/
theorem c8_parser_acceptance_witness :
    parse_github_datetime_to_unix "2024-03-15 10:30:00" = none ∧
    parse_github_datetime_to_unix "2024-03-15T10:30:00Zjunk" = none ∧
    parse_github_datetime_to_unix "2024-03T10:30Z" = none ∧
    parseDateTime (("2024-03-15T10:30:00".data) ++ '.' :: (("9999".data) ++ ['Z']))
      = parseDateTime (("2024-03-15T10:30:00".data) ++ ['Z']) := by
  refine ⟨?_, ?_, ?_, ?_⟩
  · exact (c8_parser_acceptance.2.2.2.1) "2024-03-15 10:30:00" (by decide)
  · exact (c8_parser_acceptance.2.2.2.2.1) "2024-03-15T10:30:00Zjunk"
      ("2024-03-15T10:30:00".data) ("junk".data) (by decide) (by decide) (by decide)
  · exact (c8_parser_acceptance.2.2.2.2.2.1) "2024-03T10:30Z" ("2024-03T10:30".data)
      (by decide) (by decide)
  · exact (c8_parser_acceptance.2.2.2.2.2.2.2) ("2024-03-15T10:30:00".data) ("9999".data)
      (by decide)

/-! ## Claim C10 : whitespace-trim invariance of the parser -/

theorem trimStart_idem (l : List Char) : trimStart (trimStart l) = trimStart l := by
  induction l with
  | nil => rfl
  | cons c cs ih =>
    by_cases h : isRustWhitespace c
    · simp only [trimStart, List.dropWhile_cons, h, if_true] at ih ⊢
      exact ih
    · simp [trimStart, List.dropWhile_cons, h]

theorem length_dropWhile_le (p : Char → Bool) (l : List Char) :
    (l.dropWhile p).length ≤ l.length := by
  induction l with
  | nil => simp
  | cons x xs ih =>
    by_cases h : p x
    · simp only [List.dropWhile_cons, h, if_true, List.length_cons]
      omega
    · simp [List.dropWhile_cons, h]

theorem trimStart_trimEnd_of_fix {l : List Char} (h : trimStart l = l) :
    trimStart (trimEnd l) = trimEnd l := by
  cases l with
  | nil => rfl
  | cons c cs =>
    have hc : isRustWhitespace c = false := by
      by_contra hcc
      rw [Bool.not_eq_false] at hcc
      have h2 : trimStart (c :: cs) = trimStart cs := by
        simp [trimStart, List.dropWhile_cons, hcc]
      rw [h2] at h
      have hlen := length_dropWhile_le isRustWhitespace cs
      have h3 := congrArg List.length h
      simp only [trimStart] at h3
      simp at h3
      omega
    cases hr : trimEnd cs with
    | nil =>
      rw [show trimEnd (c :: cs)
          = (match trimEnd cs with
             | [] => if isRustWhitespace c then [] else [c]
             | r => c :: r) from rfl, hr]
      simp [trimStart, List.dropWhile_cons, hc]
    | cons y ys =>
      rw [show trimEnd (c :: cs)
          = (match trimEnd cs with
             | [] => if isRustWhitespace c then [] else [c]
             | r => c :: r) from rfl, hr]
      simp [trimStart, List.dropWhile_cons, hc]

theorem trimEnd_idem (l : List Char) : trimEnd (trimEnd l) = trimEnd l := by
  induction l with
  | nil => rfl
  | cons c cs ih =>
    cases hr : trimEnd cs with
    | nil =>
      rw [show trimEnd (c :: cs)
          = (match trimEnd cs with
             | [] => if isRustWhitespace c then [] else [c]
             | r => c :: r) from rfl, hr]
      by_cases hw : isRustWhitespace c = true
      · rw [if_pos hw]
        rfl
      · rw [if_neg hw]
        rw [show trimEnd [c]
            = (match trimEnd ([] : List Char) with
               | [] => if isRustWhitespace c then [] else [c]
               | r => c :: r) from rfl]
        rw [show trimEnd ([] : List Char) = [] from rfl]
        rw [if_neg hw]
    | cons y ys =>
      rw [show trimEnd (c :: cs)
          = (match trimEnd cs with
             | [] => if isRustWhitespace c then [] else [c]
             | r => c :: r) from rfl, hr]
      have h2 : trimEnd (y :: ys) = y :: ys := by
        rw [hr] at ih
        exact ih
      rw [show trimEnd (c :: y :: ys)
          = (match trimEnd (y :: ys) with
             | [] => if isRustWhitespace c then [] else [c]
             | r => c :: r) from rfl, h2]

theorem rustTrim_idem (l : List Char) : rustTrim (rustTrim l) = rustTrim l := by
  unfold rustTrim
  rw [trimStart_trimEnd_of_fix (trimStart_idem l), trimEnd_idem]

/-- Claim C10 (confirmed): the parser is invariant under surrounding
whitespace — parsing any string gives the same result as parsing the string
with its leading and trailing whitespace removed, and an otherwise-valid
timestamp wrapped in spaces and a newline is accepted. -/
theorem c10_parser_trim_invariant :
    (∀ s : String, parse_github_datetime_to_unix s
        = parse_github_datetime_to_unix (String.mk (rustTrim s.data))) ∧
    parse_github_datetime_to_unix "  2024-03-15T10:30:00Z\n" = some 1710498600 := by
  constructor
  · intro s
    unfold parse_github_datetime_to_unix
    rw [show (String.mk (rustTrim s.data)).data = rustTrim s.data from rfl]
    rw [rustTrim_idem]
  · decide

/-! ## Claim C1 : pagination early stop -/

/-- Whether the authored-stream loop keeps a node: parseable and at or after
the cutoff. -/
def authored_keep (cutoff_ts : Int) (n : PullRequestNode) : Bool :=
  match parse_github_datetime_to_unix n.updated_at with
  | some u => cutoff_ts ≤ u
  | none => false

/-- What the review-requested loop keeps of one search node: convertible,
not stale, and passing the reviewer-inclusion policy (a node with an
unparseable timestamp skips only the staleness check). -/
def search_keep (include_team_requests : Bool) (viewer_login : String) (cutoff_ts : Int)
    (n : SearchNode) : Option PullRequestNode :=
  match n.into_pull_request with
  | none => none
  | some pr =>
    match parse_github_datetime_to_unix pr.updated_at with
    | some u =>
      if u < cutoff_ts then none
      else if include_team_requests || is_review_requested_by_user pr viewer_login then some pr
      else none
    | none =>
      if include_team_requests || is_review_requested_by_user pr viewer_login then some pr
      else none

/-- The parseable `updatedAt` values of a page of authored nodes. -/
def parsedTimes (ns : List PullRequestNode) : List Int :=
  ns.filterMap fun n => parse_github_datetime_to_unix n.updated_at

/-- The parseable `updatedAt` values of the convertible nodes of a search
page. -/
def searchParsedTimes (ns : List SearchNode) : List Int :=
  ns.filterMap fun n =>
    n.into_pull_request.bind fun pr => parse_github_datetime_to_unix pr.updated_at

/-- The running-minimum accumulator of both page loops. -/
def minFold (mo : Option Int) (us : List Int) : Option Int :=
  us.foldl (fun o u => some (match o with | some m => min m u | none => u)) mo

/-- Minimum of a list of timestamps, `none` when empty. -/
def minList (us : List Int) : Option Int := minFold none us

theorem minFold_some_eq : ∀ (us : List Int) (a : Int), minFold (some a) us = some (us.foldl min a) := by
  intro us
  induction us with
  | nil => intro a; rfl
  | cons u rest ih =>
    intro a
    show minFold (some (min a u)) rest = _
    rw [ih (min a u)]
    rfl

theorem minList_cons (u : Int) (us : List Int) : minList (u :: us) = some (us.foldl min u) := by
  show minFold (some u) us = _
  exact minFold_some_eq us u

theorem foldl_min_le : ∀ (us : List Int) (a : Int),
    us.foldl min a ≤ a ∧ ∀ u ∈ us, us.foldl min a ≤ u := by
  intro us
  induction us with
  | nil => intro a; exact ⟨le_refl a, by simp⟩
  | cons u rest ih =>
    intro a
    rw [List.foldl_cons]
    obtain ⟨h1, h2⟩ := ih (min a u)
    refine ⟨le_trans h1 (min_le_left a u), ?_⟩
    intro v hv
    rcases List.mem_cons.mp hv with hv | hv
    · subst hv
      exact le_trans h1 (min_le_right a v)
    · exact h2 v hv

theorem foldl_min_mem : ∀ (us : List Int) (a : Int),
    us.foldl min a = a ∨ us.foldl min a ∈ us := by
  intro us
  induction us with
  | nil => intro a; exact Or.inl rfl
  | cons u rest ih =>
    intro a
    rw [List.foldl_cons]
    rcases ih (min a u) with h | h
    · rw [h]
      rcases le_total a u with hau | hau
      · rw [min_eq_left hau] at h ⊢
        exact Or.inl rfl
      · rw [min_eq_right hau] at h ⊢
        exact Or.inr (List.mem_cons_self u rest)
    · exact Or.inr (List.mem_cons_of_mem u h)

theorem minList_is_min {us : List Int} {m : Int} (h : minList us = some m) :
    m ∈ us ∧ ∀ u ∈ us, m ≤ u := by
  cases us with
  | nil => exact absurd h (by simp [minList, minFold])
  | cons u rest =>
    rw [minList_cons] at h
    have hm2 : m = rest.foldl min u := (Option.some.inj h).symm
    obtain ⟨h1, h2⟩ := foldl_min_le rest u
    constructor
    · rcases foldl_min_mem rest u with h3 | h3
      · rw [hm2, h3]
        exact List.mem_cons_self u rest
      · rw [hm2]
        exact List.mem_cons_of_mem u h3
    · intro v hv
      rcases List.mem_cons.mp hv with hv | hv
      · rw [hm2, hv]
        exact h1
      · rw [hm2]
        exact h2 v hv

theorem authored_scan_general (cutoff_ts : Int) :
    ∀ (ns : List PullRequestNode) (acc : List PullRequestNode) (mo : Option Int),
      ns.foldl
        (fun acc n =>
          match parse_github_datetime_to_unix n.updated_at with
          | some u =>
            let mn := some (match acc.2 with | some m => min m u | none => u)
            if cutoff_ts ≤ u then (acc.1 ++ [n], mn) else (acc.1, mn)
          | none => acc)
        (acc, mo)
      = (acc ++ ns.filter (authored_keep cutoff_ts), minFold mo (parsedTimes ns)) := by
  intro ns
  induction ns with
  | nil =>
    intro acc mo
    simp [parsedTimes, minFold]
  | cons n rest ih =>
    intro acc mo
    rw [List.foldl_cons]
    cases hp : parse_github_datetime_to_unix n.updated_at with
    | none =>
      simp only [hp]
      rw [ih]
      have hk : authored_keep cutoff_ts n = false := by simp [authored_keep, hp]
      simp [List.filter_cons, hk, parsedTimes, List.filterMap_cons, hp]
    | some u =>
      simp only [hp]
      by_cases hcu : cutoff_ts ≤ u
      · rw [if_pos hcu, ih]
        have hk : authored_keep cutoff_ts n = true := by simp [authored_keep, hp, hcu]
        simp only [List.filter_cons, hk, if_true, parsedTimes, List.filterMap_cons, hp]
        rw [show minFold mo (u :: rest.filterMap fun n => parse_github_datetime_to_unix n.updated_at)
            = minFold (some (match mo with | some m => min m u | none => u))
                (rest.filterMap fun n => parse_github_datetime_to_unix n.updated_at) from rfl]
        simp
      · rw [if_neg hcu, ih]
        have hk : authored_keep cutoff_ts n = false := by
          simp only [authored_keep, hp]
          simpa using hcu
        simp only [List.filter_cons, hk, if_false, parsedTimes, List.filterMap_cons, hp]
        rw [show minFold mo (u :: rest.filterMap fun n => parse_github_datetime_to_unix n.updated_at)
            = minFold (some (match mo with | some m => min m u | none => u))
                (rest.filterMap fun n => parse_github_datetime_to_unix n.updated_at) from rfl]
        simp

theorem authored_page_scan_spec (cutoff_ts : Int) (ns : List PullRequestNode) :
    authored_page_scan cutoff_ts ns
      = (ns.filter (authored_keep cutoff_ts), minList (parsedTimes ns)) := by
  unfold authored_page_scan
  rw [authored_scan_general]
  simp [minList]

theorem search_scan_general (include_team_requests : Bool) (viewer_login : String)
    (cutoff_ts : Int) :
    ∀ (ns : List SearchNode) (acc : List PullRequestNode) (mo : Option Int),
      ns.foldl
        (fun acc n =>
          match n.into_pull_request with
          | none => acc
          | some pr =>
            match parse_github_datetime_to_unix pr.updated_at with
            | some u =>
              let mn := some (match acc.2 with | some m => min m u | none => u)
              if u < cutoff_ts then (acc.1, mn)
              else if include_team_requests || is_review_requested_by_user pr viewer_login then
                (acc.1 ++ [pr], mn)
              else (acc.1, mn)
            | none =>
              if include_team_requests || is_review_requested_by_user pr viewer_login then
                (acc.1 ++ [pr], acc.2)
              else acc)
        (acc, mo)
      = (acc ++ ns.filterMap (search_keep include_team_requests viewer_login cutoff_ts),
         minFold mo (searchParsedTimes ns)) := by
  intro ns
  induction ns with
  | nil =>
    intro acc mo
    simp [searchParsedTimes, minFold]
  | cons n rest ih =>
    intro acc mo
    rw [List.foldl_cons]
    cases hip : n.into_pull_request with
    | none =>
      simp only [hip]
      rw [ih]
      simp [List.filterMap_cons, search_keep, hip, searchParsedTimes]
    | some pr =>
      simp only [hip]
      cases hp : parse_github_datetime_to_unix pr.updated_at with
      | some u =>
        simp only [hp]
        have htime : searchParsedTimes (n :: rest) = u :: searchParsedTimes rest := by
          simp [searchParsedTimes, List.filterMap_cons, hip, hp]
        by_cases hcu : u < cutoff_ts
        · rw [if_pos hcu, ih]
          have hk : search_keep include_team_requests viewer_login cutoff_ts n = none := by
            simp [search_keep, hip, hp, hcu]
          simp only [List.filterMap_cons, hk, htime]
          rw [show minFold mo (u :: searchParsedTimes rest)
              = minFold (some (match mo with | some m => min m u | none => u))
                  (searchParsedTimes rest) from rfl]
        · rw [if_neg hcu]
          by_cases hfil : (include_team_requests || is_review_requested_by_user pr viewer_login)
              = true
          · rw [if_pos hfil, ih]
            have hk : search_keep include_team_requests viewer_login cutoff_ts n = some pr := by
              simp [search_keep, hip, hp, hcu, hfil]
            simp only [List.filterMap_cons, hk, htime]
            rw [show minFold mo (u :: searchParsedTimes rest)
                = minFold (some (match mo with | some m => min m u | none => u))
                    (searchParsedTimes rest) from rfl]
            simp
          · rw [if_neg hfil, ih]
            have hk : search_keep include_team_requests viewer_login cutoff_ts n = none := by
              simp only [search_keep, hip, hp]
              rw [if_neg hcu, if_neg hfil]
            simp only [List.filterMap_cons, hk, htime]
            rw [show minFold mo (u :: searchParsedTimes rest)
                = minFold (some (match mo with | some m => min m u | none => u))
                    (searchParsedTimes rest) from rfl]
      | none =>
        simp only [hp]
        have htime : searchParsedTimes (n :: rest) = searchParsedTimes rest := by
          simp [searchParsedTimes, List.filterMap_cons, hip, hp]
        by_cases hfil : (include_team_requests || is_review_requested_by_user pr viewer_login)
            = true
        · rw [if_pos hfil, ih]
          have hk : search_keep include_team_requests viewer_login cutoff_ts n = some pr := by
            simp [search_keep, hip, hp, hfil]
          simp only [List.filterMap_cons, hk, htime]
          simp
        · rw [if_neg hfil, ih]
          have hk : search_keep include_team_requests viewer_login cutoff_ts n = none := by
            simp only [search_keep, hip, hp]
            rw [if_neg hfil]
          simp only [List.filterMap_cons, hk, htime]

theorem search_page_scan_spec (include_team_requests : Bool) (viewer_login : String)
    (cutoff_ts : Int) (ns : List SearchNode) :
    search_page_scan include_team_requests viewer_login cutoff_ts ns
      = (ns.filterMap (search_keep include_team_requests viewer_login cutoff_ts),
         minList (searchParsedTimes ns)) := by
  unfold search_page_scan
  rw [search_scan_general]
  simp [minList]

/-- Claim C1 (counterexample, review-requested stream): with team-wide
inclusion disabled, the stopping page's fresh node (parseable, at or after
the cutoff) is NOT kept when the viewer is not among its requested
reviewers — the kept list of the run is empty even though the early stop
fires on this page. -/
def searchNodeFresh : SearchNode :=
  { typename := some "PullRequest", number := some 1, title := some "t", url := some "u",
    updated_at := some "2024-03-15T10:30:00Z", repository := some sampleRepo,
    author := none, review_requests := none, head_ref_oid := none, review_decision := none,
    is_draft := none, mergeable := none, merge_state_status := none, commits := none,
    reviews := none, base_ref := none }

/-- A stale search node (updated before the cutoff). -/
def searchNodeStale : SearchNode :=
  { typename := some "PullRequest", number := some 2, title := some "t2", url := some "u2",
    updated_at := some "2024-03-01T00:00:00Z", repository := some sampleRepo,
    author := none, review_requests := none, head_ref_oid := none, review_decision := none,
    is_draft := none, mergeable := none, merge_state_status := none, commits := none,
    reviews := none, base_ref := none }

/-- A fresh authored node (updated after the cutoff 2024-03-10). -/
def prNodeFresh : PullRequestNode :=
  { number := 1, title := "t", url := "u", updated_at := "2024-03-15T10:30:00Z",
    repository := sampleRepo, author := none, review_requests := none, head_ref_oid := none,
    review_decision := none, is_draft := none, mergeable := none, merge_state_status := none,
    commits := none, reviews := none, base_ref := none }

/-- A stale authored node (updated before the cutoff 2024-03-10). -/
def prNodeStale : PullRequestNode :=
  { number := 2, title := "t2", url := "u2", updated_at := "2024-03-01T00:00:00Z",
    repository := sampleRepo, author := none, review_requests := none, head_ref_oid := none,
    review_decision := none, is_draft := none, mergeable := none, merge_state_status := none,
    commits := none, reviews := none, base_ref := none }

/-- Claim C1 (counterexample): cutoff 1710028800 (2024-03-10T00:00:00Z); the
page reports a next page and its fresh node is at the cutoff or later, yet
the run keeps nothing, because the reviewer-inclusion policy also filters
the stopping page's fresh nodes in the review-requested stream. -/
theorem c1_counterexample :
    run_search false "alice" 1710028800
        [⟨⟨true, some "cur"⟩, some [searchNodeFresh, searchNodeStale]⟩,
         ⟨⟨false, none⟩, some []⟩]
      = ([], 1) ∧
    searchNodeFresh.into_pull_request.isSome = true ∧
    (searchNodeFresh.into_pull_request.bind fun pr =>
      parse_github_datetime_to_unix pr.updated_at) = some 1710498600 ∧
    (1710028800 : Int) ≤ 1710498600 ∧
    minList (searchParsedTimes [searchNodeFresh, searchNodeStale]) = some 1709251200 ∧
    (1709251200 : Int) < 1710028800 := by
  refine ⟨?_, by decide, by decide, by decide, by decide, by decide⟩
  decide

/-- Claim C1 (amended): for each stream, whenever the minimum updated-at
among the page's parseable (convertible, for the search stream) nodes is
strictly older than the cutoff, exactly one page is requested — no further
page, even if the page reports one — and that same page's nodes are still
kept under the stream's normal per-node rules: in the authored stream every
parseable node at or after the cutoff, in the review-requested stream every
such node that also passes the reviewer-inclusion policy. `minList` really
is the minimum of the listed timestamps. -/
theorem c1_pagination_early_stop :
    (∀ (cutoff_ts : Int) (p : AuthoredPage) (rest : List AuthoredPage)
        (ns : List PullRequestNode) (m : Int),
      p.nodes = some ns → minList (parsedTimes ns) = some m → m < cutoff_ts →
      run_authored cutoff_ts (p :: rest) = (ns.filter (authored_keep cutoff_ts), 1)) ∧
    (∀ (inc : Bool) (viewer_login : String) (cutoff_ts : Int) (p : SearchPage)
        (rest : List SearchPage) (ns : List SearchNode) (m : Int),
      p.nodes = some ns → minList (searchParsedTimes ns) = some m → m < cutoff_ts →
      run_search inc viewer_login cutoff_ts (p :: rest)
        = (ns.filterMap (search_keep inc viewer_login cutoff_ts), 1)) ∧
    (∀ (us : List Int) (m : Int), minList us = some m → m ∈ us ∧ ∀ u ∈ us, m ≤ u) := by
  refine ⟨?_, ?_, fun us m h => minList_is_min h⟩
  · intro cutoff_ts p rest ns m hnodes hmin hlt
    cases p with
    | mk pinfo pnodes =>
      simp only at hnodes
      subst hnodes
      simp only [run_authored]
      rw [authored_page_scan_spec, hmin]
      simp [minBelow, hlt]
  · intro inc viewer_login cutoff_ts p rest ns m hnodes hmin hlt
    cases p with
    | mk pinfo pnodes =>
      simp only at hnodes
      subst hnodes
      simp only [run_search]
      rw [search_page_scan_spec, hmin]
      simp [minBelow, hlt]

/-- Witness for C1 at cutoff 2024-03-10, with a stopping page that reports a
further page available: the fresh node is kept, the stale one is not, and
exactly one page is requested in each stream. -/
theorem c1_pagination_early_stop_witness :
    run_authored 1710028800
        [⟨⟨true, some "cur"⟩, some [prNodeFresh, prNodeStale]⟩, ⟨⟨false, none⟩, some []⟩]
      = ([prNodeFresh], 1) ∧
    run_search true "alice" 1710028800
        [⟨⟨true, some "cur"⟩, some [searchNodeFresh, searchNodeStale]⟩,
         ⟨⟨false, none⟩, some []⟩]
      = ([prNodeFresh], 1) ∧
    ((1709251200 : Int) ∈ [(1710498600 : Int), 1709251200] ∧
      ∀ u ∈ [(1710498600 : Int), 1709251200], (1709251200 : Int) ≤ u) := by
  refine ⟨?_, ?_, ?_⟩
  · have h := c1_pagination_early_stop.1 1710028800
      ⟨⟨true, some "cur"⟩, some [prNodeFresh, prNodeStale]⟩ [⟨⟨false, none⟩, some []⟩]
      [prNodeFresh, prNodeStale] 1709251200 rfl (by decide) (by decide)
    rw [h]
    decide
  · have h := c1_pagination_early_stop.2.1 true "alice" 1710028800
      ⟨⟨true, some "cur"⟩, some [searchNodeFresh, searchNodeStale]⟩ [⟨⟨false, none⟩, some []⟩]
      [searchNodeFresh, searchNodeStale] 1709251200 rfl (by decide) (by decide)
    rw [h]
    decide
  · exact c1_pagination_early_stop.2.2 [1710498600, 1709251200] 1709251200 (by decide)

end Koto
